import Mathlib

/-!
Verification of `vic.py` (impedance from S-parameters).

The numeric domain of the program is Python/numpy complex numbers.  We embed
the exact complex arithmetic of the formulas over `CQ`, complex numbers with
rational components (a computable model of the complex field on which every
operation of the source is executable), and transfer algebraic facts to `ℂ`
through the injective field-operation-preserving map `CQ.toC`.
-/

/-- Complex numbers with rational real and imaginary parts: a computable
model of the complex values manipulated by `vic.py`. -/
structure CQ where
  re : ℚ
  im : ℚ
deriving DecidableEq, Repr

namespace CQ

instance : Zero CQ := ⟨⟨0, 0⟩⟩

instance : One CQ := ⟨⟨1, 0⟩⟩

instance : Add CQ := ⟨fun a b => ⟨a.re + b.re, a.im + b.im⟩⟩

instance : Neg CQ := ⟨fun a => ⟨-a.re, -a.im⟩⟩

instance : Sub CQ := ⟨fun a b => ⟨a.re - b.re, a.im - b.im⟩⟩

instance : Mul CQ := ⟨fun a b => ⟨a.re * b.re - a.im * b.im, a.re * b.im + a.im * b.re⟩⟩

/-- Squared modulus, the denominator used by complex division. -/
def normSq (a : CQ) : ℚ := a.re * a.re + a.im * a.im

instance : Inv CQ := ⟨fun a => ⟨a.re / normSq a, -a.im / normSq a⟩⟩

instance : Div CQ := ⟨fun a b => a * b⁻¹⟩

instance (n : ℕ) : OfNat CQ n := ⟨⟨(n : ℚ), 0⟩⟩

@[simp] theorem zero_re : (0 : CQ).re = 0 := rfl

@[simp] theorem zero_im : (0 : CQ).im = 0 := rfl

@[simp] theorem one_re : (1 : CQ).re = 1 := rfl

@[simp] theorem one_im : (1 : CQ).im = 0 := rfl

@[simp] theorem ofNat_re (n : ℕ) [n.AtLeastTwo] : (OfNat.ofNat n : CQ).re = (n : ℚ) := rfl

@[simp] theorem ofNat_im (n : ℕ) [n.AtLeastTwo] : (OfNat.ofNat n : CQ).im = 0 := rfl

@[simp] theorem add_re (a b : CQ) : (a + b).re = a.re + b.re := rfl

@[simp] theorem add_im (a b : CQ) : (a + b).im = a.im + b.im := rfl

@[simp] theorem neg_re (a : CQ) : (-a).re = -a.re := rfl

@[simp] theorem neg_im (a : CQ) : (-a).im = -a.im := rfl

@[simp] theorem sub_re (a b : CQ) : (a - b).re = a.re - b.re := rfl

@[simp] theorem sub_im (a b : CQ) : (a - b).im = a.im - b.im := rfl

@[simp] theorem mul_re (a b : CQ) : (a * b).re = a.re * b.re - a.im * b.im := rfl

@[simp] theorem mul_im (a b : CQ) : (a * b).im = a.re * b.im + a.im * b.re := rfl

/-- Embedding of `CQ` into the complex numbers. -/
def toC (a : CQ) : ℂ := ⟨(a.re : ℝ), (a.im : ℝ)⟩

@[simp] theorem toC_re (a : CQ) : (toC a).re = (a.re : ℝ) := rfl

@[simp] theorem toC_im (a : CQ) : (toC a).im = (a.im : ℝ) := rfl

theorem toC_injective : Function.Injective toC := by
  intro a b h
  have hre : ((a.re : ℝ)) = (b.re : ℝ) := congrArg Complex.re h
  have him : ((a.im : ℝ)) = (b.im : ℝ) := congrArg Complex.im h
  cases a; cases b
  simp only [Rat.cast_injective.eq_iff] at hre him
  simp_all

@[simp] theorem toC_zero : toC 0 = 0 := by
  apply Complex.ext <;> simp

@[simp] theorem toC_one : toC 1 = 1 := by
  apply Complex.ext <;> simp

theorem toC_ofNat (n : ℕ) [n.AtLeastTwo] :
    toC (OfNat.ofNat n) = OfNat.ofNat n := by
  apply Complex.ext
  · show ((n : ℚ) : ℝ) = (OfNat.ofNat n : ℂ).re
    rfl
  · show ((0 : ℚ) : ℝ) = (OfNat.ofNat n : ℂ).im
    simp

@[simp] theorem toC_two : toC 2 = 2 := toC_ofNat 2

@[simp] theorem toC_fifty : toC 50 = 50 := toC_ofNat 50

@[simp] theorem toC_add (a b : CQ) : toC (a + b) = toC a + toC b := by
  apply Complex.ext <;> simp

@[simp] theorem toC_neg (a : CQ) : toC (-a) = -toC a := by
  apply Complex.ext <;> simp

@[simp] theorem toC_sub (a b : CQ) : toC (a - b) = toC a - toC b := by
  apply Complex.ext <;> simp

@[simp] theorem toC_mul (a b : CQ) : toC (a * b) = toC a * toC b := by
  apply Complex.ext <;> simp

@[simp] theorem toC_normSq (a : CQ) : ((normSq a : ℚ) : ℝ) = Complex.normSq (toC a) := by
  simp [normSq, Complex.normSq_apply]

@[simp] theorem toC_inv (a : CQ) : toC a⁻¹ = (toC a)⁻¹ := by
  apply Complex.ext
  · rw [Complex.inv_re]
    show ((a.re / normSq a : ℚ) : ℝ) = _
    rw [Rat.cast_div, toC_normSq, toC_re, div_eq_mul_inv]
  · rw [Complex.inv_im]
    show ((-a.im / normSq a : ℚ) : ℝ) = _
    rw [Rat.cast_div, toC_normSq, Rat.cast_neg, div_eq_mul_inv]
    show -(a.im : ℝ) * _ = -(toC a).im * _
    rw [toC_im]

@[simp] theorem toC_div (a b : CQ) : toC (a / b) = toC a / toC b := by
  show toC (a * b⁻¹) = _
  rw [toC_mul, toC_inv, div_eq_mul_inv]

theorem toC_eq_iff (a b : CQ) : toC a = toC b ↔ a = b :=
  ⟨fun h => toC_injective h, fun h => by rw [h]⟩

theorem toC_ne_zero (a : CQ) (h : a ≠ 0) : toC a ≠ 0 := by
  intro hc
  exact h (toC_injective (by rw [hc, toC_zero]))

theorem toC_ne (a b : CQ) (h : a ≠ b) : toC a ≠ toC b := fun hc => h (toC_injective hc)

end CQ

/-!
## Embedding of the functions and the main pipeline of `vic.py`
-/

/-- `def s11_shunt_impedance(z0, s11): return z0 * ((1 + s11) / (1 - s11))`
(vic.py lines 23-24), in exact complex-rational arithmetic. -/
def s11_shunt_impedance (z0 s11 : CQ) : CQ :=
  z0 * ((1 + s11) / (1 - s11))

/-- `def s21_series_impedance(z0, s21): return z0 * (2 * (1 - s21)) / (s21)`
(vic.py lines 27-28). -/
def s21_series_impedance (z0 s21 : CQ) : CQ :=
  z0 * (2 * (1 - s21)) / (s21)

/-- `def s21_shunt_through_impedance(z0, s21): return (z0 * s21) / (2 * (1 - s21))`
(vic.py lines 31-32). -/
def s21_shunt_through_impedance (z0 s21 : CQ) : CQ :=
  (z0 * s21) / (2 * (1 - s21))

/-- The `MeasurementType` enumeration of vic.py (lines 14-17). -/
inductive MeasurementType where
  | s11_shunt
  | s21_series
  | s21_shunt_through
deriving DecidableEq, Repr

/-- One frequency point of the parsed S-parameter data: a 2×2 complex matrix
indexed `[output_port][input_port]` (a 1×1 one-port file is embedded in the
upper-left corner).  `s_arrays` in vic.py is a list of these. -/
abbrev SPoint : Type := Fin 2 → Fin 2 → CQ

/-- `s_arrays`: the 3-d array `[frequency_index][output_port][input_port]`. -/
abbrev SParameterArray : Type := List SPoint

/-- The numpy slice `s_arrays[:, i, j]`. -/
def sChannel (s : SParameterArray) (i j : Fin 2) : List CQ :=
  s.map (fun p => p i j)

/-- The topology dispatch of vic.py lines 72-80: the `if/elif/elif/else`
chain selecting the S-parameter channel and the formula, with the final
`else` reporting `Unknown measurement type` and exiting.  The argument is an
`Option MeasurementType`: `some t` is one of the three enumeration members,
`none` stands for any runtime value that is not an enumeration member (for
which every Python `==` test against a member is false), so that the
defensive `else` branch of the source is part of the model. -/
def topologyDispatch (t : Option MeasurementType) (z0 : CQ) (s : SParameterArray) :
    Except String (List CQ) :=
  if t = some MeasurementType.s11_shunt then
    Except.ok ((sChannel s 0 0).map (s11_shunt_impedance z0))
  else if t = some MeasurementType.s21_series then
    Except.ok ((sChannel s 1 0).map (s21_series_impedance z0))
  else if t = some MeasurementType.s21_shunt_through then
    Except.ok ((sChannel s 1 0).map (s21_shunt_through_impedance z0))
  else
    Except.error "Unknown measurement type"

/-- The reference-impedance resolution of vic.py lines 59-68: if `--z0` was
given on the command line it is used directly; otherwise the embedded value
is read from the touchstone data (`touchstone.get_gamma_z0()`, modelled as an
`Except` since it can raise), and failure exits with the diagnostic
`Unknown system impedance, use -z`. -/
def resolve_z0 (cli_z0 : Option CQ) (embedded : Except String CQ) : Except String CQ :=
  match cli_z0 with
  | some z => Except.ok z
  | none =>
    match embedded with
    | Except.ok z => Except.ok z
    | Except.error _ => Except.error "Unknown system impedance, use -z"

/-- The export loop of vic.py lines 81-85: one CSV record per
`zip(frequencies, impedances)` element, in order. -/
def exportRows {V : Type} (frequencies : List ℚ) (impedances : List V) : List (ℚ × V) :=
  frequencies.zip impedances

/-- The main pipeline of vic.py after the touchstone file is parsed:
resolve z0 (exit on failure), dispatch on the topology (exit on failure),
export the `(frequency, impedance)` records.  An `Except.error` models the
non-zero `sys_exit(1)` with its stderr diagnostic; monadic sequencing makes
an early exit skip every later stage. -/
def runMain (cli_z0 : Option CQ) (embedded : Except String CQ)
    (t : Option MeasurementType) (frequencies : List ℚ) (s : SParameterArray) :
    Except String (List (ℚ × CQ)) := do
  let z0 ← resolve_z0 cli_z0 embedded
  let impedances ← topologyDispatch t z0 s
  return exportRows frequencies impedances

/-!
## Finiteness-tracking model of the numpy float arithmetic

`vic.py` computes with numpy complex floats: division by an exact zero emits
a warning but raises no exception and produces a non-finite (inf/nan
component) complex value, and every further arithmetic operation on a
non-finite complex operand used here (`+`, `-`, `*`, `/` by it as numerator)
again yields a non-finite value.  `CE` tracks exactly that finiteness
information over the exact values: `fin a` is a finite complex value `a`,
`nonfinite` is any value with an infinite or nan component. -/
inductive CE where
  | fin : CQ → CE
  | nonfinite : CE
deriving DecidableEq, Repr

namespace CE

instance : Zero CE := ⟨fin 0⟩

instance : One CE := ⟨fin 1⟩

instance (n : ℕ) : OfNat CE n := ⟨fin ⟨(n : ℚ), 0⟩⟩

instance : Add CE :=
  ⟨fun a b => match a, b with
    | fin a, fin b => fin (a + b)
    | _, _ => nonfinite⟩

instance : Sub CE :=
  ⟨fun a b => match a, b with
    | fin a, fin b => fin (a - b)
    | _, _ => nonfinite⟩

instance : Mul CE :=
  ⟨fun a b => match a, b with
    | fin a, fin b => fin (a * b)
    | _, _ => nonfinite⟩

/-- Division: a finite value divided by exact (complex) zero is non-finite
(inf or nan components, no exception); a non-finite value propagates. -/
instance : Div CE :=
  ⟨fun a b => match a, b with
    | fin a, fin b => if b = 0 then nonfinite else fin (a / b)
    | _, _ => nonfinite⟩

end CE

/-- `s11_shunt_impedance` as executed on numpy complex floats at the level of
finiteness: the same expression `z0 * ((1 + s11) / (1 - s11))` over `CE`. -/
def s11_shunt_impedanceF (z0 s11 : CE) : CE :=
  z0 * ((1 + s11) / (1 - s11))

/-- The shunt-one-port run over the float model: compute the impedance array
elementwise and write the `zip(frequencies, impedances)` records. -/
def shuntPipelineF (z0 : CE) (frequencies : List ℚ) (s11s : List CE) : List (ℚ × CE) :=
  exportRows frequencies (s11s.map (s11_shunt_impedanceF z0))

/-!
## Helper lemmas
-/

theorem CQ.eq_iff (a b : CQ) : a = b ↔ a.re = b.re ∧ a.im = b.im := by
  cases a
  cases b
  simp [CQ.mk.injEq]

/-- The source expression of `s11_shunt_impedance` written with the spec's
association `z0 * (1 + s11) / (1 - s11)`. -/
theorem s11_shunt_scalar (z0 s : CQ) :
    s11_shunt_impedance z0 s = z0 * (1 + s) / (1 - s) := by
  apply CQ.toC_injective
  simp only [s11_shunt_impedance, CQ.toC_mul, CQ.toC_div, CQ.toC_add, CQ.toC_sub, CQ.toC_one]
  exact (mul_div_assoc _ _ _).symm

/-- The source expression of `s21_series_impedance` equals the spec's
`2 * z0 * (1 - s21) / s21`. -/
theorem s21_series_scalar (z0 s : CQ) :
    s21_series_impedance z0 s = 2 * z0 * (1 - s) / s := by
  apply CQ.toC_injective
  simp only [s21_series_impedance, CQ.toC_mul, CQ.toC_div, CQ.toC_sub, CQ.toC_one, CQ.toC_ofNat]
  congr 1
  ring

/-!
## Claims
-/

/-- C1: for every complex reference impedance `z0` and every `S11 ≠ 1`, the
shunt-one-port function returns `z0 * (1 + S11) / (1 - S11)`, elementwise
over the frequency axis, and for `S11 = 0` it returns exactly `z0`. -/
theorem shunt_one_port_formula (z0 : CQ) (l : List CQ) (h : ∀ x ∈ l, x ≠ 1) :
    l.map (s11_shunt_impedance z0) = l.map (fun s11 => z0 * (1 + s11) / (1 - s11)) ∧
    s11_shunt_impedance z0 0 = z0 := by
  constructor
  · have : s11_shunt_impedance z0 = fun s11 => z0 * (1 + s11) / (1 - s11) :=
      funext (fun s => s11_shunt_scalar z0 s)
    rw [this]
  · apply CQ.toC_injective
    simp [s11_shunt_impedance]

/-- C1 witness: the theorem at `z0 = 3 + 4i`, `l = [0]`. -/
theorem shunt_one_port_formula_witness :
    (∀ x ∈ [(0 : CQ)], x ≠ 1) ∧
    ([(0 : CQ)].map (s11_shunt_impedance ⟨3, 4⟩) =
        [(0 : CQ)].map (fun s11 => (⟨3, 4⟩ : CQ) * (1 + s11) / (1 - s11)) ∧
      s11_shunt_impedance ⟨3, 4⟩ 0 = ⟨3, 4⟩) :=
  ⟨by decide, shunt_one_port_formula ⟨3, 4⟩ [0] (by decide)⟩

/-- C2: for every `z0` and every `S21 ≠ 0`, the series-two-port function
returns `2 * z0 * (1 - S21) / S21` (the spec's variant of the formula),
elementwise; for `S21 = 1` it returns exactly `0`; and it differs from the
non-equivalent historical variant `2 * (z0 - S21) / S21` (exhibited at
`z0 = 50`, `S21 = 2`, where the code gives `-50` and the variant `48`). -/
theorem series_two_port_formula (z0 : CQ) (l : List CQ) (h : ∀ x ∈ l, x ≠ 0) :
    l.map (s21_series_impedance z0) = l.map (fun s21 => 2 * z0 * (1 - s21) / s21) ∧
    s21_series_impedance z0 1 = 0 ∧
    s21_series_impedance 50 2 ≠ 2 * ((50 : CQ) - 2) / 2 := by
  refine ⟨?_, ?_, ?_⟩
  · have : s21_series_impedance z0 = fun s21 => 2 * z0 * (1 - s21) / s21 :=
      funext (fun s => s21_series_scalar z0 s)
    rw [this]
  · apply CQ.toC_injective
    simp [s21_series_impedance]
  · intro hcontra
    have := congrArg CQ.toC hcontra
    simp only [s21_series_impedance, CQ.toC_mul, CQ.toC_div, CQ.toC_sub, CQ.toC_ofNat] at this
    norm_num at this

/-- C2 witness: the theorem at `z0 = 50`, `l = [1]`. -/
theorem series_two_port_formula_witness :
    (∀ x ∈ [(1 : CQ)], x ≠ 0) ∧
    ([(1 : CQ)].map (s21_series_impedance 50) =
        [(1 : CQ)].map (fun s21 => 2 * (50 : CQ) * (1 - s21) / s21) ∧
      s21_series_impedance 50 1 = 0 ∧
      s21_series_impedance 50 2 ≠ 2 * ((50 : CQ) - 2) / 2) :=
  ⟨by decide, series_two_port_formula 50 [1] (by decide)⟩

/-- C3: for every `z0` and every `S21 ≠ 1`, the shunt-through-two-port
function returns `z0 * S21 / (2 * (1 - S21))`, elementwise; for `S21 = 0` it
returns exactly `0`. -/
theorem shunt_through_formula (z0 : CQ) (l : List CQ) (h : ∀ x ∈ l, x ≠ 1) :
    l.map (s21_shunt_through_impedance z0) =
      l.map (fun s21 => z0 * s21 / (2 * (1 - s21))) ∧
    s21_shunt_through_impedance z0 0 = 0 := by
  constructor
  · rfl
  · apply CQ.toC_injective
    simp [s21_shunt_through_impedance]

/-- C3 witness: the theorem at `z0 = 3 + 4i`, `l = [0]`. -/
theorem shunt_through_formula_witness :
    (∀ x ∈ [(0 : CQ)], x ≠ 1) ∧
    ([(0 : CQ)].map (s21_shunt_through_impedance ⟨3, 4⟩) =
        [(0 : CQ)].map (fun s21 => (⟨3, 4⟩ : CQ) * s21 / (2 * (1 - s21))) ∧
      s21_shunt_through_impedance ⟨3, 4⟩ 0 = 0) :=
  ⟨by decide, shunt_through_formula ⟨3, 4⟩ [0] (by decide)⟩

/-- C4: the topology selector extracts channel (1,1) (`s_arrays[:, 0, 0]`)
and applies the shunt-one-port formula for `s11_shunt`, and channel (2,1)
(`s_arrays[:, 1, 0]`) with the respective formula for `s21_series` and
`s21_shunt_through`; a runtime value outside the three-member enumeration
(modelled by `none`) reaches the defensive `else` and fails with the
unsupported-topology diagnostic instead of falling through silently. -/
theorem topology_dispatch_channels (z0 : CQ) (s : SParameterArray) (i : ℕ) :
    (∃ zs, topologyDispatch (some MeasurementType.s11_shunt) z0 s = Except.ok zs ∧
      zs.length = s.length ∧
      zs[i]? = (s[i]?).map (fun p => s11_shunt_impedance z0 (p 0 0))) ∧
    (∃ zs, topologyDispatch (some MeasurementType.s21_series) z0 s = Except.ok zs ∧
      zs.length = s.length ∧
      zs[i]? = (s[i]?).map (fun p => s21_series_impedance z0 (p 1 0))) ∧
    (∃ zs, topologyDispatch (some MeasurementType.s21_shunt_through) z0 s = Except.ok zs ∧
      zs.length = s.length ∧
      zs[i]? = (s[i]?).map (fun p => s21_shunt_through_impedance z0 (p 1 0))) ∧
    topologyDispatch none z0 s = Except.error "Unknown measurement type" := by
  refine ⟨⟨(sChannel s 0 0).map (s11_shunt_impedance z0), ?_, ?_, ?_⟩,
    ⟨(sChannel s 1 0).map (s21_series_impedance z0), ?_, ?_, ?_⟩,
    ⟨(sChannel s 1 0).map (s21_shunt_through_impedance z0), ?_, ?_, ?_⟩, ?_⟩
  · simp [topologyDispatch]
  · simp [sChannel]
  · simp only [sChannel, List.getElem?_map]
    cases s[i]? <;> rfl
  · simp [topologyDispatch]
  · simp [sChannel]
  · simp only [sChannel, List.getElem?_map]
    cases s[i]? <;> rfl
  · simp [topologyDispatch]
  · simp [sChannel]
  · simp only [sChannel, List.getElem?_map]
    cases s[i]? <;> rfl
  · simp [topologyDispatch]

/-- C6: whenever an explicit (command-line) reference impedance is supplied,
it is the resolved value, and the result does not depend on the embedded
(touchstone) value, which is therefore never read. -/
theorem explicit_z0_precedence (z : CQ) (e e2 : Except String CQ) :
    resolve_z0 (some z) e = Except.ok z ∧
    resolve_z0 (some z) e = resolve_z0 (some z) e2 :=
  ⟨rfl, rfl⟩

/-- C7: with no explicit reference impedance and a failing embedded read,
the run terminates with the diagnostic directing the caller to supply one
(`Unknown system impedance, use -z`, modelling `sys_exit(1)` after the
stderr message), for every topology and every input data, before any
impedance computation or export is performed. -/
theorem missing_z0_fails (msg : String) (t : Option MeasurementType)
    (freqs : List ℚ) (s : SParameterArray) :
    runMain none (Except.error msg) t freqs s =
      Except.error "Unknown system impedance, use -z" :=
  rfl

/-- C5: for the shunt-one-port topology, an input `S11 = 1` makes the
formula's denominator `1 - S11` exactly zero, so the computation yields a
non-finite complex value; being a total function it raises no exception,
and the export loop still completes, producing a record pairing that
frequency with the non-finite value (and one record per zipped frequency
overall). -/
theorem shunt_singularity_export (z0 : CE) (freqs : List ℚ) (s11s : List CE)
    (i : ℕ) (f : ℚ) (h1 : s11s[i]? = some 1) (hf : freqs[i]? = some f) :
    s11_shunt_impedanceF z0 1 = CE.nonfinite ∧
    (shuntPipelineF z0 freqs s11s).length = min freqs.length s11s.length ∧
    (shuntPipelineF z0 freqs s11s)[i]? = some (f, CE.nonfinite) := by
  have hone : ∀ w : CE, s11_shunt_impedanceF w 1 = CE.nonfinite := by
    intro w
    have h11 : (1 : CE) - 1 = CE.fin 0 := by
      show CE.fin ((1 : CQ) - 1) = CE.fin 0
      norm_num [CQ.eq_iff]
    show w * ((1 + 1) / ((1 : CE) - 1)) = CE.nonfinite
    rw [h11]
    show w * CE.nonfinite = CE.nonfinite
    cases w <;> rfl
  refine ⟨hone z0, ?_, ?_⟩
  · simp [shuntPipelineF, exportRows]
  · rw [shuntPipelineF, exportRows, List.getElem?_zip_eq_some]
    refine ⟨hf, ?_⟩
    rw [List.getElem?_map, h1]
    show some (s11_shunt_impedanceF z0 1) = some CE.nonfinite
    rw [hone z0]

/-- C5 witness: the theorem at `z0 = 50`, one frequency `1` with `S11 = 1`. -/
theorem shunt_singularity_export_witness :
    ([(1 : CE)])[0]? = some 1 ∧ ([(1 : ℚ)])[0]? = some 1 ∧
    (s11_shunt_impedanceF 50 1 = CE.nonfinite ∧
      (shuntPipelineF 50 [(1 : ℚ)] [(1 : CE)]).length =
        min [(1 : ℚ)].length [(1 : CE)].length ∧
      (shuntPipelineF 50 [(1 : ℚ)] [(1 : CE)])[0]? = some (1, CE.nonfinite)) :=
  ⟨by decide, by decide,
    shunt_singularity_export 50 [(1 : ℚ)] [(1 : CE)] 0 1 (by decide) (by decide)⟩

/-- C8: for `z0 ≠ 0` and `S11 ≠ 1`, the computed `Z = s11_shunt_impedance z0 S11`
satisfies `Z + z0 ≠ 0`, and the inverse map `(Z - z0) / (Z + z0)` recovers
the original `S11` exactly. -/
theorem shunt_inverse_roundtrip (z0 s11 : CQ) (hz : z0 ≠ 0) (hs : s11 ≠ 1) :
    s11_shunt_impedance z0 s11 + z0 ≠ 0 ∧
    (s11_shunt_impedance z0 s11 - z0) / (s11_shunt_impedance z0 s11 + z0) = s11 := by
  have hA : CQ.toC z0 ≠ 0 := CQ.toC_ne_zero z0 hz
  have hS : CQ.toC s11 ≠ 1 := by
    intro hc
    exact hs (CQ.toC_injective (by rw [hc, CQ.toC_one]))
  have h1S : (1 : ℂ) - CQ.toC s11 ≠ 0 := sub_ne_zero.mpr (Ne.symm hS)
  have hsum : CQ.toC (s11_shunt_impedance z0 s11 + z0) =
      2 * CQ.toC z0 / (1 - CQ.toC s11) := by
    simp only [CQ.toC_add, s11_shunt_impedance, CQ.toC_mul, CQ.toC_div, CQ.toC_one]
    field_simp
    ring
  have hdiff : CQ.toC (s11_shunt_impedance z0 s11 - z0) =
      2 * CQ.toC z0 * CQ.toC s11 / (1 - CQ.toC s11) := by
    simp only [CQ.toC_sub, s11_shunt_impedance, CQ.toC_mul, CQ.toC_div, CQ.toC_one]
    field_simp
    ring
  constructor
  · intro h0
    have hc := congrArg CQ.toC h0
    rw [hsum, CQ.toC_zero] at hc
    rcases div_eq_zero_iff.mp hc with h | h
    · exact mul_ne_zero two_ne_zero hA h
    · exact h1S h
  · apply CQ.toC_injective
    rw [CQ.toC_div, hdiff, hsum]
    rw [div_div_div_cancel_right₀]
    · exact mul_div_cancel_left₀ _ (mul_ne_zero two_ne_zero hA)
    · exact h1S

/-- C8 witness: the theorem at `z0 = 3 + 4i`, `S11 = i`. -/
theorem shunt_inverse_roundtrip_witness :
    (⟨3, 4⟩ : CQ) ≠ 0 ∧ (⟨0, 1⟩ : CQ) ≠ 1 ∧
    (s11_shunt_impedance ⟨3, 4⟩ ⟨0, 1⟩ + ⟨3, 4⟩ ≠ 0 ∧
      (s11_shunt_impedance ⟨3, 4⟩ ⟨0, 1⟩ - ⟨3, 4⟩) /
        (s11_shunt_impedance ⟨3, 4⟩ ⟨0, 1⟩ + ⟨3, 4⟩) = ⟨0, 1⟩) :=
  ⟨by decide, by decide, shunt_inverse_roundtrip ⟨3, 4⟩ ⟨0, 1⟩ (by decide) (by decide)⟩

/-!
## The isolation computation of the visualization stage

`isolation = -20 * np_log10(np_abs((2 * z0) / ((2 * z0) + impedances)))`
(vic.py line 123) is a composition of whole-array numpy operations, each
allocating a fresh array; we model each operation as a map over a list of
exact complex values without mutating its argument. -/

/-- numpy broadcast `c + xs` of a scalar and an array. -/
def npAddScalarC (c : ℂ) (xs : List ℂ) : List ℂ := xs.map (fun x => c + x)

/-- numpy broadcast `c / xs` of a scalar and an array. -/
noncomputable def npScalarDivC (c : ℂ) (xs : List ℂ) : List ℂ := xs.map (fun x => c / x)

/-- `np_abs` on a complex array. -/
noncomputable def npAbsC (xs : List ℂ) : List ℝ := xs.map (fun x => Complex.abs x)

/-- `np_log10` on a real array. -/
noncomputable def npLog10 (xs : List ℝ) : List ℝ := xs.map (fun x => Real.logb 10 x)

/-- numpy broadcast `c * xs` of a real scalar and a real array. -/
def npScalarMulR (c : ℝ) (xs : List ℝ) : List ℝ := xs.map (fun x => c * x)

/-- vic.py line 123, operation for operation. -/
noncomputable def isolation_series (z0 : ℂ) (impedances : List ℂ) : List ℝ :=
  npScalarMulR (-20) (npLog10 (npAbsC (npScalarDivC (2 * z0) (npAddScalarC (2 * z0) impedances))))

/-- C9: the isolation series is computed elementwise from the resolved `z0`
and the impedance array as `-20 * log10 |(2*z0) / (2*z0 + Z)|`, one output
value per impedance value (each numpy operation allocates a new array, and
the embedding is pure, so the impedance array is left unchanged). -/
theorem isolation_formula (z0 : ℂ) (zs : List ℂ) :
    isolation_series z0 zs =
      zs.map (fun Z => -20 * Real.logb 10 (Complex.abs ((2 * z0) / (2 * z0 + Z)))) ∧
    (isolation_series z0 zs).length = zs.length := by
  constructor <;>
    simp [isolation_series, npScalarMulR, npLog10, npAbsC, npScalarDivC, npAddScalarC,
      List.map_map, Function.comp]

/-- C10 (implicit): for every `z0` and every `s` with `s ≠ 0` and `s ≠ 1`,
the series-two-port and shunt-through-two-port impedances multiply to
`z0 * z0` (that is, `z0²`) in exact complex arithmetic. -/
theorem series_shunt_through_product (z0 s : CQ) (h0 : s ≠ 0) (h1 : s ≠ 1) :
    s21_series_impedance z0 s * s21_shunt_through_impedance z0 s = z0 * z0 := by
  apply CQ.toC_injective
  simp only [CQ.toC_mul, s21_series_impedance, s21_shunt_through_impedance, CQ.toC_div,
    CQ.toC_sub, CQ.toC_one, CQ.toC_two]
  have hS : CQ.toC s ≠ 0 := CQ.toC_ne_zero s h0
  have hS1 : CQ.toC s ≠ 1 := by
    intro hc
    exact h1 (CQ.toC_injective (by rw [hc, CQ.toC_one]))
  have h1S : (1 : ℂ) - CQ.toC s ≠ 0 := sub_ne_zero.mpr (Ne.symm hS1)
  field_simp
  ring

/-- C10 witness: the theorem at `z0 = 3 + 4i`, `s = 2`. -/
theorem series_shunt_through_product_witness :
    (2 : CQ) ≠ 0 ∧ (2 : CQ) ≠ 1 ∧
    s21_series_impedance ⟨3, 4⟩ 2 * s21_shunt_through_impedance ⟨3, 4⟩ 2 =
      (⟨3, 4⟩ : CQ) * ⟨3, 4⟩ :=
  ⟨by decide, by decide, series_shunt_through_product ⟨3, 4⟩ 2 (by decide) (by decide)⟩
